import Mathlib

/-!
Shallow embedding of the `Backoff` retry engine of the `timetool` Go package
(`src/unnamed/part_001`, second compilation unit, lines 173-427, together with
the cancellable `Sleep` wrapper of `src/sleep.go`).

Modelling conventions:
* `time.Duration` (int64 nanoseconds) and Go `int` are modelled as unbounded
  `Int`; no claim below exercises 64-bit overflow of durations.
* `float64` quantities (`Jitter`, the delay `multiple`, `rand.Float64()`
  draws) are modelled as exact rationals `ℚ`.  The powers of two produced by
  `uint(1) << (uint(attempt) - 1)` are exactly representable in `float64`, and
  the 64-bit shift semantics (a shift count of 64 or more yields 0) is kept in
  `goMultiple`.  The conversion `time.Duration(f)` truncates a float toward
  zero; `truncRat` models it.
* The `1 << (b.Iterations - 2)` shift in `WithTotalDelay` is a Go `int`
  (64-bit two's complement) computation; `wrap64` keeps its wraparound.
* The cancellation token (`context.Context`) is modelled as an oracle
  `ctx : Nat → Bool`.  Each cancellation observation of a run — every
  `Sleep` call (select of the timer against `ctx.Done()`) and every
  `contextDoneOr` check — consumes one oracle index, in program order:
  `ctx k = true` means the token is observed as fired at the k-th
  observation (an interrupted sleep or a positive final check).
* `rand.Float64()` is drawn exactly once per loop iteration whose attempt
  fails while `Jitter ≠ 0`; the draws are modelled by `rnd : Int → ℚ`
  indexed by the attempt number.
* A run is recorded as a trace of events (predicate invocations, jitter
  draws, sleeps with requested duration) plus the returned error;
  a `nil` Go error is `Option.none`.
-/

namespace Timetool

/-- Error values of the package (`src/errors.go` and `ctx.Err()`);
`ctxErr` stands for the cancellation error returned by the context. -/
inductive GoError where
  | nilReceiver
  | tooFewIterations
  | zeroCoefficient
  | negativeDelay
  | badJitter
  | retriesExhausted
  | ctxErr
  deriving DecidableEq, Repr

/-- Go constant `minIterations = 2`. -/
def minIterations : Int := 2

/-- The `Backoff` policy struct (part_001 lines 195-207).  Durations are in
nanoseconds, `Jitter` is the `float64` percentage. -/
structure Backoff where
  Iterations : Int
  Coefficient : Int
  Jitter : ℚ
  startWait : Int
  initWait : Int
  deriving DecidableEq, Repr

/-- The non-nil part of `(*Backoff).validate` (part_001 lines 397-417):
the switch checks iterations, coefficient and jitter in priority order. -/
def validateB (b : Backoff) : Option GoError :=
  if b.Iterations < minIterations then some GoError.tooFewIterations
  else if b.Coefficient = 0 then some GoError.zeroCoefficient
  else if b.Coefficient < 0 then some GoError.negativeDelay
  else if b.Jitter ≠ 0 ∧ (b.Jitter < 0 ∨ 100 ≤ b.Jitter) then some GoError.badJitter
  else none

/-- `(*Backoff).validate`, including the `b == nil` receiver check. -/
def validate (bp : Option Backoff) : Option GoError :=
  match bp with
  | none => some GoError.nilReceiver
  | some b => validateB b

/-- Conversion `time.Duration(f)` of a `float64`: truncation toward zero. -/
def truncRat (q : ℚ) : Int :=
  if q < 0 then Int.ceil q else Int.floor q

/-- The unjittered multiple `float64(uint(1) << (uint(attempt) - 1))`
(part_001 line 382).  The shift is on a 64-bit `uint`: a shift count of 64
or more yields 0; otherwise the power of two is exact in `float64`. -/
def goMultiple (attempt : Int) : ℚ :=
  if 64 ≤ attempt - 1 then 0 else 2 ^ (attempt - 1).toNat

/-- The jitter summand `j = (((b.Jitter * rand.Float64()) - (b.Jitter / 2)) / 100)`
(part_001 line 385). -/
def jitterTerm (J r : ℚ) : ℚ :=
  ((J * r) - J / 2) / 100

/-- The delay multiple after the optional jitter adjustment
(part_001 lines 382-387): `multiple += multiple * j` when `Jitter != 0`. -/
def jitteredMultiple (J r : ℚ) (attempt : Int) : ℚ :=
  let m := goMultiple attempt
  if J ≠ 0 then m + m * jitterTerm J r else m

/-- Which `Sleep` call of `Retry` a trace entry comes from: the startup wait,
the initial wait, or the exponential delay computed after attempt `a` failed. -/
inductive SleepKind where
  | startW
  | initW
  | expoW (a : Int)
  deriving DecidableEq, Repr

/-- Observable events of a `Retry` run: a call to `Sleep` with its requested
duration (recorded whether or not the wait is interrupted), an invocation
`retry(i)` of the predicate, and a `rand.Float64()` draw. -/
inductive Event where
  | slept (kind : SleepKind) (d : Int)
  | called (i : Int)
  | drew (attempt : Int) (r : ℚ)
  deriving DecidableEq, Repr

/-- `contextDoneOr` (part_001 lines 419-426): a non-blocking check of
`ctx.Done()` consuming the `k`-th cancellation observation. -/
def contextDoneOr (ctx : Nat → Bool) (k : Nat) (e : Option GoError) : Option GoError :=
  if ctx k then some GoError.ctxErr else e

/-- The exponential delay passed to `Sleep` after attempt `attempt` failed:
`b.Coefficient * time.Duration(multiple)` (part_001 line 389). -/
def expoDelay (b : Backoff) (rnd : Int → ℚ) (attempt : Int) : Int :=
  b.Coefficient * truncRat (jitteredMultiple b.Jitter (rnd attempt) attempt)

/-- The retry loop `for attempt := 1; attempt < b.Iterations; attempt++`
(part_001 lines 371-392), entered with `fuel = (b.Iterations - 1).toNat`
remaining iterations, the current `attempt`, and the next cancellation
observation index `k`.  Events of the remainder of the run are returned
together with the resulting error. -/
def retryLoop (b : Backoff) (ctx : Nat → Bool) (retry : Int → Bool) (rnd : Int → ℚ) :
    Nat → Int → Nat → List Event × Option GoError
  | 0, _, k => ([], contextDoneOr ctx k (some GoError.retriesExhausted))
  | fuel + 1, attempt, k =>
    if attempt = 1 ∧ ctx k then
      ([Event.slept SleepKind.initW b.initWait], some GoError.ctxErr)
    else
      let pre : List Event := if attempt = 1 then [Event.slept SleepKind.initW b.initWait] else []
      let k1 : Nat := if attempt = 1 then k + 1 else k
      if retry attempt then
        (pre ++ [Event.called attempt], contextDoneOr ctx k1 none)
      else
        let dr : List Event := if b.Jitter ≠ 0 then [Event.drew attempt (rnd attempt)] else []
        let d := expoDelay b rnd attempt
        if ctx k1 then
          (pre ++ Event.called attempt :: dr ++ [Event.slept (SleepKind.expoW attempt) d],
            some GoError.ctxErr)
        else
          let rest := retryLoop b ctx retry rnd fuel (attempt + 1) (k1 + 1)
          (pre ++ Event.called attempt :: dr ++ Event.slept (SleepKind.expoW attempt) d :: rest.1,
            rest.2)

/-- `(*Backoff).Retry` (part_001 lines 355-395): validate, `Sleep(ctx,
b.startWait)` (observation 0), run `retry(0)`, then enter the loop at
attempt 1 with observation index 1. -/
def Retry (bp : Option Backoff) (ctx : Nat → Bool) (retry : Int → Bool) (rnd : Int → ℚ) :
    List Event × Option GoError :=
  match bp with
  | none => ([], some GoError.nilReceiver)
  | some b =>
    match validateB b with
    | some e => ([], some e)
    | none =>
      if ctx 0 then ([Event.slept SleepKind.startW b.startWait], some GoError.ctxErr)
      else if retry 0 then
        ([Event.slept SleepKind.startW b.startWait, Event.called 0], contextDoneOr ctx 1 none)
      else
        let rest := retryLoop b ctx retry rnd (b.Iterations - 1).toNat 1 1
        (Event.slept SleepKind.startW b.startWait :: Event.called 0 :: rest.1, rest.2)

/-- The predicate invocations of a trace, in order. -/
def callsOf (es : List Event) : List Int :=
  es.filterMap fun e =>
    match e with
    | Event.called i => some i
    | _ => none

/-- The exponential delays of a trace, in order, as pairs of the attempt
number the delay was computed after and the requested duration. -/
def expoDelaysOf (es : List Event) : List (Int × Int) :=
  es.filterMap fun e =>
    match e with
    | Event.slept (SleepKind.expoW a) d => some (a, d)
    | _ => none

/-- Wrap an unbounded integer to a 64-bit two's-complement Go `int`. -/
def wrap64 (x : Int) : Int :=
  (x + 2 ^ 63) % 2 ^ 64 - 2 ^ 63

/-- The denominator `int((1 << (b.Iterations - 2)) - 1)` of `WithTotalDelay`
(part_001 line 274), computed in 64-bit Go `int` arithmetic. -/
def goDivisor (iters : Int) : Int :=
  wrap64 (wrap64 (2 ^ (iters - 2).toNat) - 1)

/-- `(Backoff).WithStartWait` (part_001 lines 304-307): value receiver,
returns a copy with only `startWait` replaced. -/
def WithStartWait (b : Backoff) (d : Int) : Backoff :=
  { b with startWait := d }

/-- `(Backoff).WithInitialWait` (part_001 lines 324-327): value receiver,
returns a copy with only `initWait` replaced. -/
def WithInitialWait (b : Backoff) (d : Int) : Backoff :=
  { b with initWait := d }

/-- The local copy of the receiver after `b.Coefficient = time.Duration(
float64(d) / float64(int((1<<(b.Iterations-2))-1)))` (part_001 line 274),
where `d1` is the remaining total after subtracting the waits.  The float
division followed by the `time.Duration` conversion is modelled as exact
rational division followed by truncation toward zero. -/
def withTotalCandidate (b : Backoff) (d1 : Int) : Backoff :=
  { b with Coefficient := truncRat ((d1 : ℚ) / (goDivisor b.Iterations : ℚ)) }

/-- `(Backoff).WithTotalDelay` (part_001 lines 260-281). -/
def WithTotalDelay (b : Backoff) (d : Int) : Except GoError Backoff :=
  if b.Iterations < minIterations then Except.error GoError.tooFewIterations
  else if b.Iterations = minIterations then
    Except.ok (WithInitialWait { b with Coefficient := 1 } d)
  else if d - (b.startWait + b.initWait) < 0 then Except.error GoError.negativeDelay
  else
    match validateB (withTotalCandidate b (d - (b.startWait + b.initWait))) with
    | some e => Except.error e
    | none => Except.ok (withTotalCandidate b (d - (b.startWait + b.initWait)))

/-- The sum of the inter-attempt exponential delays of a policy: the delays
computed after attempts `1 .. b.Iterations - 2`, each separating two
consecutive attempts (the delay after the final attempt is not between
attempts).  Stated with the engine's delay formula at jitter draw 0. -/
def interDelaySum (b : Backoff) : Int :=
  ∑ m in Finset.range (b.Iterations - 2).toNat,
    b.Coefficient * truncRat (jitteredMultiple b.Jitter 0 (1 + (m : Int)))

/-! ### Basic lemmas about the embedded definitions -/

theorem validateB_none_iff (b : Backoff) :
    validateB b = none ↔
      2 ≤ b.Iterations ∧ 0 < b.Coefficient ∧
        (b.Jitter = 0 ∨ (0 < b.Jitter ∧ b.Jitter < 100)) := by
  unfold validateB minIterations
  split_ifs with h1 h2 h3 h4
  · refine iff_of_false (by simp) ?_
    rintro ⟨hA, -, -⟩; omega
  · refine iff_of_false (by simp) ?_
    rintro ⟨-, hC, -⟩; omega
  · refine iff_of_false (by simp) ?_
    rintro ⟨-, hC, -⟩; omega
  · refine iff_of_false (by simp) ?_
    rintro ⟨-, -, hJ⟩
    obtain ⟨hne, hor⟩ := h4
    rcases hJ with h0 | ⟨hp, hlt⟩
    · exact hne h0
    · rcases hor with hneg | hge <;> linarith
  · refine iff_of_true rfl ?_
    push_neg at h4
    refine ⟨by omega, by omega, ?_⟩
    by_cases hJ0 : b.Jitter = 0
    · exact Or.inl hJ0
    · obtain ⟨hnn, hlt⟩ := h4 hJ0
      exact Or.inr ⟨lt_of_le_of_ne hnn (Ne.symm hJ0), hlt⟩

theorem truncRat_intCast (n : Int) : truncRat (n : ℚ) = n := by
  unfold truncRat
  split_ifs with h
  · exact Int.ceil_intCast n
  · exact Int.floor_intCast n

theorem truncRat_of_nonneg (q : ℚ) (h : 0 ≤ q) : truncRat q = Int.floor q := by
  unfold truncRat
  rw [if_neg (not_lt.mpr h)]

theorem goMultiple_eq_pow (a : Int) (h : a ≤ 64) : goMultiple a = 2 ^ (a - 1).toNat := by
  unfold goMultiple
  rw [if_neg (by omega)]

theorem goMultiple_pos (a : Int) (h2 : a ≤ 64) : 0 < goMultiple a := by
  rw [goMultiple_eq_pow a h2]
  positivity

theorem goMultiple_one : goMultiple 1 = 1 := by
  rw [goMultiple_eq_pow 1 (by omega)]
  norm_num

theorem jitterTerm_lb (J r : ℚ) (hJ : 0 < J) (hr : 0 ≤ r) : -(J / 200) ≤ jitterTerm J r := by
  unfold jitterTerm
  have h : 0 ≤ J * r := mul_nonneg hJ.le hr
  linarith

theorem jitterTerm_ub (J r : ℚ) (hJ : 0 < J) (hr1 : r < 1) : jitterTerm J r < J / 200 := by
  unfold jitterTerm
  have h : J * r < J := by nlinarith
  linarith

theorem callsOf_nil : callsOf [] = [] := rfl

theorem callsOf_append (l1 l2 : List Event) :
    callsOf (l1 ++ l2) = callsOf l1 ++ callsOf l2 :=
  List.filterMap_append l1 l2 _

theorem callsOf_cons_called (i : Int) (l : List Event) :
    callsOf (Event.called i :: l) = i :: callsOf l := rfl

theorem callsOf_cons_slept (kind : SleepKind) (d : Int) (l : List Event) :
    callsOf (Event.slept kind d :: l) = callsOf l := rfl

theorem callsOf_cons_drew (a : Int) (r : ℚ) (l : List Event) :
    callsOf (Event.drew a r :: l) = callsOf l := rfl

theorem callsOf_ifdrew (P : Prop) [Decidable P] (a : Int) (r : ℚ) :
    callsOf (if P then [Event.drew a r] else []) = [] := by
  split_ifs <;> rfl

theorem range_map_shift (n : Nat) (c : Int) :
    (List.range (n + 1)).map (fun (m : Nat) => c + (m : Int)) =
      c :: (List.range n).map (fun (m : Nat) => c + 1 + (m : Int)) := by
  rw [List.range_succ_eq_map, List.map_cons, List.map_map]
  refine congrArg₂ _ (by norm_num) ?_
  refine List.map_congr_left fun m _ => ?_
  simp only [Function.comp_apply, Nat.succ_eq_add_one]
  push_cast
  ring

theorem range_cast_two (n : Nat) :
    (List.range (n + 2)).map (fun (m : Nat) => (m : Int)) =
      0 :: 1 :: (List.range n).map (fun (m : Nat) => 2 + (m : Int)) := by
  have h0 : (fun (m : Nat) => (m : Int)) = fun (m : Nat) => (0 : Int) + (m : Int) := by
    funext m; ring
  rw [h0, show n + 2 = (n + 1) + 1 from rfl, range_map_shift (n + 1) 0]
  have h1 : (fun (m : Nat) => (0 : Int) + 1 + (m : Int))
      = fun (m : Nat) => (1 : Int) + (m : Int) := by
    funext m; ring
  rw [h1, range_map_shift n 1]
  norm_num

theorem wrap64_eq (x : Int) (h1 : -(2 ^ 63) ≤ x) (h2 : x < 2 ^ 63) : wrap64 x = x := by
  unfold wrap64
  rw [Int.emod_eq_of_lt (by linarith) (by norm_num; linarith)]
  ring

theorem goDivisor_eq (I : Int) (h3 : 3 ≤ I) (h65 : I ≤ 65) :
    goDivisor I = 2 ^ (I - 2).toNat - 1 := by
  by_cases h : I ≤ 64
  · have hK : (I - 2).toNat ≤ 62 := by omega
    have hpow : (2 : Int) ^ (I - 2).toNat < 2 ^ 63 := by
      calc (2 : Int) ^ (I - 2).toNat ≤ 2 ^ 62 := pow_le_pow_right₀ (by norm_num) hK
        _ < 2 ^ 63 := by norm_num
    have hpos : (0 : Int) < 2 ^ (I - 2).toNat := by positivity
    unfold goDivisor
    rw [wrap64_eq _ (by linarith) hpow, wrap64_eq _ (by linarith) (by linarith)]
  · have hI : I = 65 := by omega
    subst hI
    decide

theorem goDivisor_of_ge (I : Int) (h : 66 ≤ I) : goDivisor I = -1 := by
  have hK : 64 ≤ (I - 2).toNat := by omega
  have h1 : wrap64 (2 ^ (I - 2).toNat) = 0 := by
    unfold wrap64
    obtain ⟨m, hm⟩ : ∃ m, (I - 2).toNat = 64 + m := ⟨(I - 2).toNat - 64, by omega⟩
    rw [hm, show (2 : Int) ^ (64 + m) + 2 ^ 63 = 2 ^ 63 + 2 ^ 64 * 2 ^ m by
      rw [pow_add]; ring]
    rw [Int.add_mul_emod_self_left, Int.emod_eq_of_lt (by positivity) (by norm_num)]
    ring
  unfold goDivisor
  rw [h1]
  decide

/-! ### Loop lemmas for `retryLoop` -/

theorem retryLoop_exhaust (b : Backoff) (ctx : Nat → Bool) (retry : Int → Bool) (rnd : Int → ℚ)
    (hretry : ∀ j, retry j = false) :
    ∀ (fuel : Nat) (a : Int) (k : Nat), 2 ≤ a →
      (∀ q, k ≤ q → q < k + fuel → ctx q = false) →
      callsOf (retryLoop b ctx retry rnd fuel a k).1 =
        (List.range fuel).map (fun (m : Nat) => a + (m : Int)) ∧
      (retryLoop b ctx retry rnd fuel a k).2 =
        contextDoneOr ctx (k + fuel) (some GoError.retriesExhausted) := by
  intro fuel
  induction fuel with
  | zero =>
      intro a k ha hctx
      simp [retryLoop, callsOf]
  | succ n ih =>
      intro a k ha hctx
      have ha1 : ¬(a = 1) := by omega
      have hck : ctx k = false := hctx k le_rfl (by omega)
      obtain ⟨ih1, ih2⟩ := ih (a + 1) (k + 1) (by omega)
        (fun q h1 h2 => hctx q (by omega) (by omega))
      constructor
      · simp only [retryLoop, ha1, hck, hretry a, Bool.false_eq_true, and_false, false_and,
          if_false, ite_false, if_neg, not_false_eq_true, List.nil_append,
          callsOf_cons_called, callsOf_append, callsOf_ifdrew, callsOf_cons_slept]
        rw [ih1]
        exact (range_map_shift n a).symm
      · simp only [retryLoop, ha1, hck, hretry a, Bool.false_eq_true, and_false, false_and,
          if_false, ite_false, if_neg, not_false_eq_true]
        rw [ih2, show k + 1 + n = k + (n + 1) by omega]

theorem retryLoop_success (b : Backoff) (ctx : Nat → Bool) (retry : Int → Bool) (rnd : Int → ℚ) :
    ∀ (fuel : Nat) (a : Int) (k : Nat) (i : Int), 2 ≤ a → a ≤ i → i < a + fuel →
      (∀ j, a ≤ j → j < i → retry j = false) → retry i = true →
      (∀ q, k ≤ q → q < k + (i - a).toNat → ctx q = false) →
      (retryLoop b ctx retry rnd fuel a k).2 = contextDoneOr ctx (k + (i - a).toNat) none := by
  intro fuel
  induction fuel with
  | zero =>
      intro a k i ha hai hia _ _ _
      omega
  | succ n ih =>
      intro a k i ha hai hia hbef htrue hctx
      have ha1 : ¬(a = 1) := by omega
      by_cases hia' : i = a
      · subst hia'
        simp only [retryLoop, ha1, htrue, false_and, if_false, ite_false, if_neg,
          not_false_eq_true, Bool.false_eq_true, and_false]
        simp [Int.sub_self]
      · have hlt : a < i := by omega
        have hra : retry a = false := hbef a le_rfl hlt
        have hck : ctx k = false := hctx k le_rfl (by omega)
        have hrec := ih (a + 1) (k + 1) i (by omega) (by omega) (by omega)
          (fun j h1 h2 => hbef j (by omega) h2) htrue
          (fun q h1 h2 => hctx q (by omega) (by omega))
        simp only [retryLoop, ha1, hra, hck, false_and, and_false, if_false, ite_false,
          if_neg, not_false_eq_true, Bool.false_eq_true]
        rw [hrec, show k + 1 + (i - (a + 1)).toNat = k + (i - a).toNat by omega]

theorem retryLoop_cancelled (b : Backoff) (ctx : Nat → Bool) (retry : Int → Bool)
    (rnd : Int → ℚ) :
    ∀ (fuel : Nat) (a : Int) (k t : Nat), 2 ≤ a → t < fuel →
      (∀ j, a ≤ j → j ≤ a + (t : Int) → retry j = false) →
      (∀ q, k ≤ q → q < k + t → ctx q = false) → ctx (k + t) = true →
      (retryLoop b ctx retry rnd fuel a k).2 = some GoError.ctxErr ∧
      callsOf (retryLoop b ctx retry rnd fuel a k).1 =
        (List.range (t + 1)).map (fun (m : Nat) => a + (m : Int)) := by
  intro fuel
  induction fuel with
  | zero =>
      intro a k t _ ht
      omega
  | succ n ih =>
      intro a k t ha ht hretry hctx hfire
      have ha1 : ¬(a = 1) := by omega
      have hra : retry a = false := hretry a le_rfl (by omega)
      by_cases ht0 : t = 0
      · subst ht0
        have hck : ctx k = true := by simpa using hfire
        constructor
        · simp only [retryLoop, ha1, hra, hck, false_and, and_false, if_false, ite_false,
            if_neg, not_false_eq_true, Bool.false_eq_true, if_true, ite_true]
        · simp only [retryLoop, ha1, hra, hck, false_and, and_false, if_false, ite_false,
            if_neg, not_false_eq_true, Bool.false_eq_true, if_true, ite_true,
            List.nil_append, callsOf_cons_called, callsOf_append, callsOf_ifdrew,
            callsOf_cons_slept, callsOf_nil]
          simp [List.range_succ]
      · have hck : ctx k = false := hctx k le_rfl (by omega)
        obtain ⟨t', rfl⟩ : ∃ t', t = t' + 1 := ⟨t - 1, by omega⟩
        obtain ⟨ihr, ihc⟩ := ih (a + 1) (k + 1) t' (by omega) (by omega)
          (fun j h1 h2 => hretry j (by omega) (by push_cast at h2 ⊢; omega))
          (fun q h1 h2 => hctx q (by omega) (by omega))
          (by rw [show k + 1 + t' = k + (t' + 1) by omega]; exact hfire)
        constructor
        · simp only [retryLoop, ha1, hra, hck, false_and, and_false, if_false, ite_false,
            if_neg, not_false_eq_true, Bool.false_eq_true]
          exact ihr
        · simp only [retryLoop, ha1, hra, hck, false_and, and_false, if_false, ite_false,
            if_neg, not_false_eq_true, Bool.false_eq_true, List.nil_append,
            callsOf_cons_called, callsOf_append, callsOf_ifdrew, callsOf_cons_slept]
          rw [ihc]
          exact (range_map_shift (t' + 1) a).symm

theorem retryLoop_expoW_mem (b : Backoff) (ctx : Nat → Bool) (retry : Int → Bool)
    (rnd : Int → ℚ) :
    ∀ (fuel : Nat) (a0 : Int) (k : Nat) (a d : Int),
      Event.slept (SleepKind.expoW a) d ∈ (retryLoop b ctx retry rnd fuel a0 k).1 →
      d = expoDelay b rnd a := by
  intro fuel
  induction fuel with
  | zero =>
      intro a0 k a d h
      simp [retryLoop] at h
  | succ n ih =>
      intro a0 k a d h
      simp only [retryLoop] at h
      by_cases hA : a0 = 1 ∧ ctx k = true
      · rw [if_pos hA] at h
        simp at h
      · rw [if_neg hA] at h
        by_cases hr : retry a0 = true
        · rw [if_pos hr] at h
          rcases List.mem_append.mp h with h1 | h1
          · by_cases h2 : a0 = 1
            · rw [if_pos h2] at h1
              simp at h1
            · rw [if_neg h2] at h1
              simp at h1
          · simp at h1
        · rw [if_neg hr] at h
          by_cases hc : ctx (if a0 = 1 then k + 1 else k) = true
          · rw [if_pos hc] at h
            rcases List.mem_append.mp h with h1 | h1
            · rcases List.mem_append.mp h1 with h2 | h2
              · by_cases h0 : a0 = 1
                · rw [if_pos h0] at h2
                  simp at h2
                · rw [if_neg h0] at h2
                  simp at h2
              · rcases List.mem_cons.mp h2 with h3 | h3
                · simp at h3
                · by_cases hj : b.Jitter ≠ 0
                  · rw [if_pos hj] at h3
                    simp at h3
                  · rw [if_neg hj] at h3
                    simp at h3
            · have h4 := List.mem_singleton.mp h1
              obtain ⟨h5, h6⟩ := Event.slept.inj h4
              cases SleepKind.expoW.inj h5
              exact h6
          · rw [if_neg hc] at h
            rcases List.mem_append.mp h with h1 | h1
            · rcases List.mem_append.mp h1 with h2 | h2
              · by_cases h0 : a0 = 1
                · rw [if_pos h0] at h2
                  simp at h2
                · rw [if_neg h0] at h2
                  simp at h2
              · rcases List.mem_cons.mp h2 with h3 | h3
                · simp at h3
                · by_cases hj : b.Jitter ≠ 0
                  · rw [if_pos hj] at h3
                    simp at h3
                  · rw [if_neg hj] at h3
                    simp at h3
            · rcases List.mem_cons.mp h1 with h4 | h4
              · obtain ⟨h5, h6⟩ := Event.slept.inj h4
                cases SleepKind.expoW.inj h5
                exact h6
              · exact ih _ _ _ _ h4

/-- A normal run of `Retry` that survives through the failed attempts 0 and 1:
the trace starts with the startup sleep, attempt 0, the initial-wait sleep,
attempt 1, the optional jitter draw and the first exponential sleep, and
continues with the loop from attempt 2 at observation index 3. -/
theorem retry_run_split (b : Backoff) (ctx : Nat → Bool) (retry : Int → Bool) (rnd : Int → ℚ)
    (hv : validateB b = none) (hc0 : ctx 0 = false) (hr0 : retry 0 = false)
    (hc1 : ctx 1 = false) (hr1 : retry 1 = false) (hc2 : ctx 2 = false) :
    Retry (some b) ctx retry rnd =
      (Event.slept SleepKind.startW b.startWait :: Event.called 0 ::
        Event.slept SleepKind.initW b.initWait :: Event.called 1 ::
        ((if b.Jitter ≠ 0 then [Event.drew 1 (rnd 1)] else []) ++
          Event.slept (SleepKind.expoW 1) (expoDelay b rnd 1) ::
          (retryLoop b ctx retry rnd (b.Iterations.toNat - 2) 2 3).1),
       (retryLoop b ctx retry rnd (b.Iterations.toNat - 2) 2 3).2) := by
  have hI : 2 ≤ b.Iterations := ((validateB_none_iff b).mp hv).1
  obtain ⟨n, hn⟩ : ∃ n, (b.Iterations - 1).toNat = n + 1 := ⟨b.Iterations.toNat - 2, by omega⟩
  have hn' : n = b.Iterations.toNat - 2 := by omega
  simp only [Retry, hv, hc0, hr0, Bool.false_eq_true, if_false, ite_false, if_neg,
    not_false_eq_true]
  rw [hn]
  simp only [retryLoop, hc1, hr1, hc2, and_true, and_false, if_true, ite_true, if_false,
    ite_false, if_neg, if_pos, not_false_eq_true, Bool.false_eq_true]
  rw [hn']
  norm_num [List.cons_append, List.singleton_append]

/-! ### Claim theorems -/

/-- Claim C1: for every valid policy, a predicate that is false everywhere and
a token that never fires, `Retry` invokes the predicate exactly `Iterations`
times at indices 0, 1, ..., Iterations-1 in increasing order and returns
`RetriesExhausted`; for the policy `{iterations:5, coefficient:1s, jitter:0}`
the exponential delays performed at attempt indices 1-4 are 1s, 2s, 4s, 8s. -/
theorem retry_allFalse_exhausts :
    (∀ (b : Backoff) (ctx : Nat → Bool) (retry : Int → Bool) (rnd : Int → ℚ),
      validateB b = none → (∀ i, retry i = false) → (∀ k, ctx k = false) →
      callsOf (Retry (some b) ctx retry rnd).1 =
        (List.range b.Iterations.toNat).map (fun (m : Nat) => (m : Int)) ∧
      (Retry (some b) ctx retry rnd).2 = some GoError.retriesExhausted) ∧
    expoDelaysOf (Retry (some ⟨5, 1000000000, 0, 0, 0⟩) (fun _ => false) (fun _ => false)
        (fun _ => 0)).1 =
      [(1, 1000000000), (2, 2000000000), (3, 4000000000), (4, 8000000000)] := by
  constructor
  · intro b ctx retry rnd hv hr hc
    have hI : 2 ≤ b.Iterations := ((validateB_none_iff b).mp hv).1
    rw [retry_run_split b ctx retry rnd hv (hc 0) (hr 0) (hc 1) (hr 1) (hc 2)]
    obtain ⟨nI, hnI⟩ : ∃ n, b.Iterations.toNat = n + 2 := ⟨b.Iterations.toNat - 2, by omega⟩
    obtain ⟨e1, e2⟩ := retryLoop_exhaust b ctx retry rnd hr (b.Iterations.toNat - 2) 2 3
      (by omega) (fun q _ _ => hc q)
    constructor
    · simp only [callsOf_cons_slept, callsOf_cons_called, callsOf_append, callsOf_ifdrew,
        List.nil_append]
      rw [e1, hnI, Nat.add_sub_cancel]
      exact (range_cast_two nI).symm
    · show (retryLoop b ctx retry rnd (b.Iterations.toNat - 2) 2 3).2
          = some GoError.retriesExhausted
      rw [e2]
      simp [contextDoneOr, hc]
  · decide

/-- Witness for C1 at a 2-iteration policy: both attempts run, in order, and
the result is `RetriesExhausted`. -/
theorem retry_allFalse_exhausts_witness :
    callsOf (Retry (some ⟨2, 1, 0, 0, 0⟩) (fun _ => false) (fun _ => false) (fun _ => 0)).1
      = [0, 1] ∧
    (Retry (some ⟨2, 1, 0, 0, 0⟩) (fun _ => false) (fun _ => false) (fun _ => 0)).2
      = some GoError.retriesExhausted := by
  have h := retry_allFalse_exhausts.1 ⟨2, 1, 0, 0, 0⟩ (fun _ => false) (fun _ => false)
    (fun _ => 0) (by decide) (fun _ => rfl) (fun _ => rfl)
  exact ⟨by rw [h.1]; decide, h.2⟩

/-- Claim C3: for a valid policy, a success at index `i` (with all earlier
attempts failing and no cancellation during the preceding waits) is followed
by one final cancellation check — the result is the cancellation error if the
token is signalled at that check and no error otherwise; symmetrically, when
the budget is consumed with no success, a signalled token at the final check
pre-empts `RetriesExhausted`. -/
theorem retry_final_check :
    (∀ (b : Backoff) (ctx : Nat → Bool) (retry : Int → Bool) (rnd : Int → ℚ) (i : Int),
      validateB b = none → 0 ≤ i → i < b.Iterations →
      (∀ j, 0 ≤ j → j < i → retry j = false) → retry i = true →
      (∀ q : Nat, (q : Int) ≤ i → ctx q = false) →
      (Retry (some b) ctx retry rnd).2 =
        (if ctx (i.toNat + 1) then some GoError.ctxErr else none)) ∧
    (∀ (b : Backoff) (ctx : Nat → Bool) (retry : Int → Bool) (rnd : Int → ℚ),
      validateB b = none → (∀ j, retry j = false) →
      (∀ q : Nat, (q : Int) ≤ b.Iterations → ctx q = false) →
      (Retry (some b) ctx retry rnd).2 =
        (if ctx (b.Iterations.toNat + 1) then some GoError.ctxErr
         else some GoError.retriesExhausted)) := by
  constructor
  · intro b ctx retry rnd i hv h0i hiI hbef htrue hctx
    have hI : 2 ≤ b.Iterations := ((validateB_none_iff b).mp hv).1
    have hc0 : ctx 0 = false := hctx 0 (by push_cast; omega)
    by_cases hi0 : i = 0
    · subst hi0
      simp only [Retry, hv, hc0, htrue, Bool.false_eq_true, if_false, ite_false, if_true,
        ite_true, if_neg, not_false_eq_true]
      norm_num [contextDoneOr]
    · have hc1 : ctx 1 = false := hctx 1 (by push_cast; omega)
      have hr0 : retry 0 = false := hbef 0 le_rfl (by omega)
      by_cases hi1 : i = 1
      · subst hi1
        simp only [Retry, hv, hc0, hr0, Bool.false_eq_true, if_false, ite_false, if_neg,
          not_false_eq_true]
        obtain ⟨n, hn⟩ : ∃ n, (b.Iterations - 1).toNat = n + 1 :=
          ⟨b.Iterations.toNat - 2, by omega⟩
        rw [hn]
        simp only [retryLoop, hc1, htrue, and_false, if_false, ite_false, if_true, ite_true,
          and_true, not_false_eq_true, Bool.false_eq_true]
        norm_num [contextDoneOr]
      · have h2i : 2 ≤ i := by omega
        have hc2 : ctx 2 = false := hctx 2 (by push_cast; omega)
        have hr1 : retry 1 = false := hbef 1 (by omega) (by omega)
        rw [retry_run_split b ctx retry rnd hv hc0 hr0 hc1 hr1 hc2]
        rw [show (Event.slept SleepKind.startW b.startWait :: Event.called 0 ::
            Event.slept SleepKind.initW b.initWait :: Event.called 1 ::
            ((if b.Jitter ≠ 0 then [Event.drew 1 (rnd 1)] else []) ++
              Event.slept (SleepKind.expoW 1) (expoDelay b rnd 1) ::
              (retryLoop b ctx retry rnd (b.Iterations.toNat - 2) 2 3).1),
           (retryLoop b ctx retry rnd (b.Iterations.toNat - 2) 2 3).2).2
          = (retryLoop b ctx retry rnd (b.Iterations.toNat - 2) 2 3).2 from rfl]
        rw [retryLoop_success b ctx retry rnd (b.Iterations.toNat - 2) 2 3 i (by omega) h2i
          (by omega) (fun j hj1 hj2 => hbef j (by omega) hj2) htrue
          (fun q hq1 hq2 => hctx q (by omega))]
        rw [show 3 + (i - 2).toNat = i.toNat + 1 by omega]
        rfl
  · intro b ctx retry rnd hv hr hctx
    have hI : 2 ≤ b.Iterations := ((validateB_none_iff b).mp hv).1
    have hc0 : ctx 0 = false := hctx 0 (by push_cast; omega)
    have hc1 : ctx 1 = false := hctx 1 (by push_cast; omega)
    have hc2 : ctx 2 = false := hctx 2 (by push_cast; omega)
    rw [retry_run_split b ctx retry rnd hv hc0 (hr 0) hc1 (hr 1) hc2]
    obtain ⟨-, e2⟩ := retryLoop_exhaust b ctx retry rnd hr (b.Iterations.toNat - 2) 2 3
      (by omega) (fun q hq1 hq2 => hctx q (by omega))
    rw [show (Event.slept SleepKind.startW b.startWait :: Event.called 0 ::
        Event.slept SleepKind.initW b.initWait :: Event.called 1 ::
        ((if b.Jitter ≠ 0 then [Event.drew 1 (rnd 1)] else []) ++
          Event.slept (SleepKind.expoW 1) (expoDelay b rnd 1) ::
          (retryLoop b ctx retry rnd (b.Iterations.toNat - 2) 2 3).1),
       (retryLoop b ctx retry rnd (b.Iterations.toNat - 2) 2 3).2).2
      = (retryLoop b ctx retry rnd (b.Iterations.toNat - 2) 2 3).2 from rfl]
    rw [e2, show 3 + (b.Iterations.toNat - 2) = b.Iterations.toNat + 1 by omega]
    rfl

/-- Witness for C3: a token signalled exactly at the final check turns a
success at index 1 (policy with 3 iterations) and an exhaustion (policy with
2 iterations) into the cancellation error. -/
theorem retry_final_check_witness :
    (Retry (some ⟨3, 1, 0, 0, 0⟩) (fun q => decide (q = 2)) (fun j => decide (1 ≤ j))
      (fun _ => 0)).2 = some GoError.ctxErr ∧
    (Retry (some ⟨2, 1, 0, 0, 0⟩) (fun q => decide (q = 3)) (fun _ => false)
      (fun _ => 0)).2 = some GoError.ctxErr := by
  constructor
  · have h := retry_final_check.1 ⟨3, 1, 0, 0, 0⟩ (fun q => decide (q = 2))
      (fun j => decide (1 ≤ j)) (fun _ => 0) 1 (by decide) (by norm_num) (by norm_num)
      (fun j h0 h1 => by simp; omega) (by norm_num)
      (fun q hq => by norm_num at hq; simp; omega)
    rw [h]
    decide
  · have h := retry_final_check.2 ⟨2, 1, 0, 0, 0⟩ (fun q => decide (q = 3))
      (fun _ => false) (fun _ => 0) (by decide) (fun _ => rfl)
      (fun q hq => by norm_num at hq; simp; omega)
    rw [h]
    decide

/-- Claim C4: if the token first fires at the K-th wait (K = 0 the startup
wait, K = 1 the initial wait, K >= 2 the exponential delay after attempt
K-1; K <= Iterations), while every earlier attempt failed, `Retry` returns
the cancellation error and the predicate has been invoked exactly at indices
0..K-1 — no more times than the attempts completed before that wait; in
particular K = 0 means the predicate is never invoked. -/
theorem retry_cancelled_during_wait :
    ∀ (b : Backoff) (ctx : Nat → Bool) (retry : Int → Bool) (rnd : Int → ℚ) (K : Nat),
      validateB b = none → K ≤ b.Iterations.toNat →
      (∀ q, q < K → ctx q = false) → ctx K = true →
      (∀ j : Nat, j < K → retry (j : Int) = false) →
      (Retry (some b) ctx retry rnd).2 = some GoError.ctxErr ∧
      callsOf (Retry (some b) ctx retry rnd).1 =
        (List.range K).map (fun (m : Nat) => (m : Int)) := by
  intro b ctx retry rnd K hv hK hbef hfire hrbef
  have hI : 2 ≤ b.Iterations := ((validateB_none_iff b).mp hv).1
  by_cases hK0 : K = 0
  · subst hK0
    simp only [Retry, hv, hfire, if_true, ite_true]
    exact ⟨trivial, by simp [callsOf]⟩
  · by_cases hK1 : K = 1
    · subst hK1
      have hc0 : ctx 0 = false := hbef 0 (by omega)
      have hr0 : retry 0 = false := by simpa using hrbef 0 (by omega)
      simp only [Retry, hv, hc0, hr0, Bool.false_eq_true, if_false, ite_false, if_neg,
        not_false_eq_true]
      obtain ⟨n, hn⟩ : ∃ n, (b.Iterations - 1).toNat = n + 1 :=
        ⟨b.Iterations.toNat - 2, by omega⟩
      rw [hn]
      simp only [retryLoop, hfire, and_true, if_true, ite_true, and_self, eq_self_iff_true]
      constructor
      · trivial
      · simp [callsOf, List.range_succ]
    · by_cases hK2 : K = 2
      · subst hK2
        have hc0 : ctx 0 = false := hbef 0 (by omega)
        have hc1 : ctx 1 = false := hbef 1 (by omega)
        have hr0 : retry 0 = false := by simpa using hrbef 0 (by omega)
        have hr1 : retry 1 = false := by simpa using hrbef 1 (by omega)
        simp only [Retry, hv, hc0, hr0, Bool.false_eq_true, if_false, ite_false, if_neg,
          not_false_eq_true]
        obtain ⟨n, hn⟩ : ∃ n, (b.Iterations - 1).toNat = n + 1 :=
          ⟨b.Iterations.toNat - 2, by omega⟩
        rw [hn]
        simp only [retryLoop, hc1, hr1, hfire, and_false, and_true, if_false, ite_false,
          if_true, ite_true, not_false_eq_true, Bool.false_eq_true]
        constructor
        · trivial
        · simp only [callsOf_cons_slept, callsOf_cons_called, callsOf_append, callsOf_ifdrew,
            callsOf_nil, List.nil_append, List.append_nil]
          simp [List.range_succ]
      · obtain ⟨nK, rfl⟩ : ∃ nk, K = nk + 3 := ⟨K - 3, by omega⟩
        have hc0 : ctx 0 = false := hbef 0 (by omega)
        have hc1 : ctx 1 = false := hbef 1 (by omega)
        have hc2 : ctx 2 = false := hbef 2 (by omega)
        have hr0 : retry 0 = false := by simpa using hrbef 0 (by omega)
        have hr1 : retry 1 = false := by simpa using hrbef 1 (by omega)
        have hretryInt : ∀ j : Int, 2 ≤ j → j ≤ 2 + (nK : Int) → retry j = false := by
          intro j hj1 hj2
          have h0j : 0 ≤ j := by omega
          have := hrbef j.toNat (by omega)
          rwa [Int.toNat_of_nonneg h0j] at this
        rw [retry_run_split b ctx retry rnd hv hc0 hr0 hc1 hr1 hc2]
        obtain ⟨cr, cc⟩ := retryLoop_cancelled b ctx retry rnd (b.Iterations.toNat - 2) 2 3 nK
          (by omega) (by omega) hretryInt (fun q hq1 hq2 => hbef q (by omega))
          (by rw [show 3 + nK = nK + 3 by omega]; exact hfire)
        constructor
        · exact cr
        · simp only [callsOf_cons_slept, callsOf_cons_called, callsOf_append, callsOf_ifdrew,
            List.nil_append]
          rw [cc, show nK + 3 = (nK + 1) + 2 by omega]
          exact (range_cast_two (nK + 1)).symm

/-- Witness for C4: cancellation already signalled at the very start (K = 0,
no predicate invocation) and cancellation first firing at the exponential
delay after attempt 1 (K = 2, predicate invoked at 0 and 1). -/
theorem retry_cancelled_during_wait_witness :
    ((Retry (some ⟨2, 1, 0, 0, 0⟩) (fun _ => true) (fun _ => false) (fun _ => 0)).2
        = some GoError.ctxErr ∧
      callsOf (Retry (some ⟨2, 1, 0, 0, 0⟩) (fun _ => true) (fun _ => false)
        (fun _ => 0)).1 = []) ∧
    ((Retry (some ⟨2, 1, 0, 0, 0⟩) (fun q => decide (2 ≤ q)) (fun _ => false)
        (fun _ => 0)).2 = some GoError.ctxErr ∧
      callsOf (Retry (some ⟨2, 1, 0, 0, 0⟩) (fun q => decide (2 ≤ q)) (fun _ => false)
        (fun _ => 0)).1 = [0, 1]) := by
  constructor
  · have h := retry_cancelled_during_wait ⟨2, 1, 0, 0, 0⟩ (fun _ => true) (fun _ => false)
      (fun _ => 0) 0 (by decide) (by norm_num) (fun q hq => absurd hq (by omega)) rfl
      (fun j hj => absurd hj (by omega))
    exact ⟨h.1, by rw [h.2]; rfl⟩
  · have h := retry_cancelled_during_wait ⟨2, 1, 0, 0, 0⟩ (fun q => decide (2 ≤ q))
      (fun _ => false) (fun _ => 0) 2 (by decide) (by norm_num)
      (fun q hq => by simp; omega) (by norm_num) (fun j hj => rfl)
    exact ⟨h.1, by rw [h.2]; decide⟩

/-- Claim C10: every exponential delay in a `Retry` trace equals
`Coefficient` times the truncation toward zero of the (possibly jittered)
float multiple; consequently, for a valid policy with nonzero jitter the
realized delay after a failed attempt 1 is either 0 or exactly `Coefficient`
— never a fractional multiple of it. -/
theorem expo_delay_quantized :
    (∀ (b : Backoff) (ctx : Nat → Bool) (retry : Int → Bool) (rnd : Int → ℚ) (a d : Int),
      Event.slept (SleepKind.expoW a) d ∈ (Retry (some b) ctx retry rnd).1 →
      d = b.Coefficient * truncRat (jitteredMultiple b.Jitter (rnd a) a)) ∧
    (∀ b : Backoff, validateB b = none → b.Jitter ≠ 0 →
      ∀ r : ℚ, 0 ≤ r → r < 1 →
        b.Coefficient * truncRat (jitteredMultiple b.Jitter r 1) = 0 ∨
        b.Coefficient * truncRat (jitteredMultiple b.Jitter r 1) = b.Coefficient) := by
  constructor
  · intro b ctx retry rnd a d h
    cases hval : validateB b with
    | some e =>
        simp only [Retry, hval] at h
        simp at h
    | none =>
        simp only [Retry, hval] at h
        by_cases hc0 : ctx 0 = true
        · rw [if_pos hc0] at h
          simp at h
        · rw [if_neg hc0] at h
          by_cases hr0 : retry 0 = true
          · rw [if_pos hr0] at h
            simp at h
          · rw [if_neg hr0] at h
            rcases List.mem_cons.mp h with h1 | h1
            · simp at h1
            · rcases List.mem_cons.mp h1 with h2 | h2
              · simp at h2
              · exact retryLoop_expoW_mem b ctx retry rnd _ _ _ a d h2
  · intro b hv hJ r hr0 hr1
    obtain ⟨-, -, hjit⟩ := (validateB_none_iff b).mp hv
    rcases hjit with h0 | ⟨hJp, hJlt⟩
    · exact absurd h0 hJ
    · have hm : jitteredMultiple b.Jitter r 1 = 1 + jitterTerm b.Jitter r := by
        simp only [jitteredMultiple]
        rw [if_pos hJ, goMultiple_one]
        ring
      have hlb := jitterTerm_lb b.Jitter r hJp hr0
      have hub := jitterTerm_ub b.Jitter r hJp hr1
      have hq0 : (0 : ℚ) ≤ 1 + jitterTerm b.Jitter r := by linarith
      have htr : truncRat (jitteredMultiple b.Jitter r 1) =
          Int.floor (1 + jitterTerm b.Jitter r) := by
        rw [hm]
        exact truncRat_of_nonneg _ hq0
      have hfl0 : 0 ≤ Int.floor (1 + jitterTerm b.Jitter r) := Int.floor_nonneg.mpr hq0
      have hfl2 : Int.floor (1 + jitterTerm b.Jitter r) < 2 := by
        rw [Int.floor_lt]
        push_cast
        linarith
      have hcases : Int.floor (1 + jitterTerm b.Jitter r) = 0 ∨
          Int.floor (1 + jitterTerm b.Jitter r) = 1 := by omega
      rcases hcases with h | h
      · left
        rw [htr, h, mul_zero]
      · right
        rw [htr, h, mul_one]

/-- Witness for C10 on the concrete run of C7's policy: the realized
exponential delay after attempt 1 is `Coefficient` times the truncated
multiple, and the quantization disjunction holds at draw 1/2. -/
theorem expo_delay_quantized_witness :
    (1000000000 : Int) = 1000000000 * truncRat (jitteredMultiple 50 ((1 : ℚ)/2) 1) ∧
    (1000000000 * truncRat (jitteredMultiple 50 ((1 : ℚ)/2) 1) = 0 ∨
      1000000000 * truncRat (jitteredMultiple 50 ((1 : ℚ)/2) 1) = 1000000000) := by
  have hmem : Event.slept (SleepKind.expoW 1) 1000000000 ∈
      (Retry (some ⟨2, 1000000000, 50, 0, 0⟩) (fun _ => false) (fun _ => false)
        (fun _ => (1 : ℚ)/2)).1 := by
    norm_num [Retry, validateB, minIterations, retryLoop, contextDoneOr, expoDelay,
      jitteredMultiple, goMultiple, jitterTerm, truncRat]
  exact ⟨expo_delay_quantized.1 ⟨2, 1000000000, 50, 0, 0⟩ (fun _ => false) (fun _ => false)
      (fun _ => (1 : ℚ)/2) 1 1000000000 hmem,
    expo_delay_quantized.2 ⟨2, 1000000000, 50, 0, 0⟩ (by decide) (by norm_num) ((1 : ℚ)/2)
      (by norm_num) (by norm_num)⟩

/-- Claim C2: `Retry` validates the policy before doing anything else and, on
a validation failure, returns immediately with the corresponding error,
invoking the predicate zero times and performing zero delays (empty trace);
the error kinds are checked in priority order: nil receiver, then
iterations < 2, then coefficient == 0, then coefficient < 0, then a nonzero
jitter outside [0, 100). -/
theorem retry_validates_first :
    (∀ ctx retry rnd, Retry none ctx retry rnd = ([], some GoError.nilReceiver)) ∧
    (∀ (b : Backoff) ctx retry rnd,
      (b.Iterations < 2 →
        Retry (some b) ctx retry rnd = ([], some GoError.tooFewIterations)) ∧
      (2 ≤ b.Iterations → b.Coefficient = 0 →
        Retry (some b) ctx retry rnd = ([], some GoError.zeroCoefficient)) ∧
      (2 ≤ b.Iterations → b.Coefficient < 0 →
        Retry (some b) ctx retry rnd = ([], some GoError.negativeDelay)) ∧
      (2 ≤ b.Iterations → 0 < b.Coefficient → b.Jitter ≠ 0 →
        (b.Jitter < 0 ∨ 100 ≤ b.Jitter) →
        Retry (some b) ctx retry rnd = ([], some GoError.badJitter))) := by
  constructor
  · intro ctx retry rnd; rfl
  · intro b ctx retry rnd
    refine ⟨fun h1 => ?_, fun h1 h2 => ?_, fun h1 h2 => ?_, fun h1 h2 h3 h4 => ?_⟩
    · have hv : validateB b = some GoError.tooFewIterations := by
        unfold validateB minIterations
        rw [if_pos h1]
      simp [Retry, hv]
    · have hv : validateB b = some GoError.zeroCoefficient := by
        unfold validateB minIterations
        rw [if_neg (by omega), if_pos h2]
      simp [Retry, hv]
    · have hv : validateB b = some GoError.negativeDelay := by
        unfold validateB minIterations
        rw [if_neg (by omega), if_neg (by omega), if_pos h2]
      simp [Retry, hv]
    · have hv : validateB b = some GoError.badJitter := by
        unfold validateB minIterations
        rw [if_neg (by omega), if_neg (by omega), if_neg (by omega), if_pos ⟨h3, h4⟩]
      simp [Retry, hv]

/-- Witness for C2 at concrete invalid policies. -/
theorem retry_validates_first_witness :
    Retry (some ⟨1, 1, 0, 0, 0⟩) (fun _ => false) (fun _ => false) (fun _ => 0)
        = ([], some GoError.tooFewIterations) ∧
    Retry (some ⟨2, 0, 0, 0, 0⟩) (fun _ => false) (fun _ => false) (fun _ => 0)
        = ([], some GoError.zeroCoefficient) ∧
    Retry (some ⟨2, -3, 0, 0, 0⟩) (fun _ => false) (fun _ => false) (fun _ => 0)
        = ([], some GoError.negativeDelay) ∧
    Retry (some ⟨2, 5, 150, 0, 0⟩) (fun _ => false) (fun _ => false) (fun _ => 0)
        = ([], some GoError.badJitter) :=
  ⟨(retry_validates_first.2 ⟨1, 1, 0, 0, 0⟩ _ _ _).1 (by norm_num),
   (retry_validates_first.2 ⟨2, 0, 0, 0, 0⟩ _ _ _).2.1 (by norm_num) rfl,
   (retry_validates_first.2 ⟨2, -3, 0, 0, 0⟩ _ _ _).2.2.1 (by norm_num) (by norm_num),
   (retry_validates_first.2 ⟨2, 5, 150, 0, 0⟩ _ _ _).2.2.2 (by norm_num) (by norm_num)
     (by norm_num) (Or.inr (by norm_num))⟩

/-- Claim C6: `WithTotalDelay` returns `TooFewIterations` when iterations < 2;
at exactly 2 iterations it succeeds with the nominal coefficient 1 and the
whole total delegated to `initWait`; with more than 2 iterations a negative
remainder yields `NegativeDelay`, and any returned policy has been
re-validated (it passes `validate`). -/
theorem withTotalDelay_branches (b : Backoff) (d : Int) :
    (b.Iterations < 2 → WithTotalDelay b d = Except.error GoError.tooFewIterations) ∧
    (b.Iterations = 2 →
      WithTotalDelay b d = Except.ok { b with Coefficient := 1, initWait := d }) ∧
    (2 < b.Iterations → d - (b.startWait + b.initWait) < 0 →
      WithTotalDelay b d = Except.error GoError.negativeDelay) ∧
    (2 < b.Iterations → ∀ b1, WithTotalDelay b d = Except.ok b1 → validateB b1 = none) := by
  refine ⟨fun h1 => ?_, fun h1 => ?_, fun h1 h2 => ?_, fun h1 b1 hok => ?_⟩
  · unfold WithTotalDelay minIterations
    rw [if_pos h1]
  · unfold WithTotalDelay minIterations WithInitialWait
    rw [if_neg (by omega), if_pos h1]
  · unfold WithTotalDelay minIterations
    rw [if_neg (by omega), if_neg (by omega), if_pos h2]
  · unfold WithTotalDelay minIterations at hok
    rw [if_neg (by omega), if_neg (by omega)] at hok
    by_cases hd : d - (b.startWait + b.initWait) < 0
    · rw [if_pos hd] at hok
      exact absurd hok (by simp)
    · rw [if_neg hd] at hok
      cases hv : validateB (withTotalCandidate b (d - (b.startWait + b.initWait))) with
      | none =>
          rw [hv] at hok
          obtain rfl : _ = b1 := Except.ok.inj hok
          exact hv
      | some e =>
          rw [hv] at hok
          exact absurd hok (by simp)

/-- Witness for C6 at concrete policies. -/
theorem withTotalDelay_branches_witness :
    WithTotalDelay ⟨1, 0, 0, 0, 0⟩ 9 = Except.error GoError.tooFewIterations ∧
    WithTotalDelay ⟨2, -7, 3, 4, 5⟩ 9
      = Except.ok { Iterations := 2, Coefficient := 1, Jitter := 3, startWait := 4, initWait := 9 } ∧
    WithTotalDelay ⟨3, 1, 0, 5, 5⟩ 3 = Except.error GoError.negativeDelay ∧
    validateB ⟨3, 7, 0, 0, 0⟩ = none :=
  ⟨(withTotalDelay_branches ⟨1, 0, 0, 0, 0⟩ 9).1 (by norm_num),
   (withTotalDelay_branches ⟨2, -7, 3, 4, 5⟩ 9).2.1 rfl,
   (withTotalDelay_branches ⟨3, 1, 0, 5, 5⟩ 3).2.2.1 (by norm_num) (by norm_num),
   (withTotalDelay_branches ⟨3, 1, 0, 0, 0⟩ 7).2.2.2 (by norm_num) ⟨3, 7, 0, 0, 0⟩ (by
     norm_num [WithTotalDelay, minIterations, withTotalCandidate, truncRat, goDivisor, wrap64,
       validateB])⟩

/-- Claim C7 (code bug): with an `iterations == 2` policy and an always-false
predicate, the exponential/jitter delay machinery DOES execute after the
failed attempt 1 — a `rand.Float64()` draw happens (jitter 50) and a sleep of
`Coefficient * 1` is performed before `RetriesExhausted` is returned — even
though the predicate runs exactly twice and only `initWait` separates the two
attempts.  This contradicts the code's own `WithTotalDelay` documentation
("a call to Retry with only 2 iterations never refers to the Coefficient
field"). -/
theorem retry_two_iterations_expo_executes :
    Retry (some ⟨2, 1000000000, 50, 0, 0⟩) (fun _ => false) (fun _ => false)
        (fun _ => (1 : ℚ) / 2) =
      ([Event.slept SleepKind.startW 0, Event.called 0, Event.slept SleepKind.initW 0,
        Event.called 1, Event.drew 1 ((1 : ℚ) / 2),
        Event.slept (SleepKind.expoW 1) 1000000000],
       some GoError.retriesExhausted) := by
  norm_num [Retry, validateB, minIterations, retryLoop, contextDoneOr, expoDelay,
    jitteredMultiple, goMultiple, jitterTerm, truncRat]

/-- Claim C9: the builder methods are value-receiver functions returning a new
policy; `WithStartWait` changes only `startWait`, `WithInitialWait` changes
only `initWait`, and a policy returned by `WithTotalDelay` keeps the
receiver's `Iterations`, `Jitter` and `startWait`. -/
theorem builders_pure (b : Backoff) (d : Int) :
    ((WithStartWait b d).Iterations = b.Iterations ∧
     (WithStartWait b d).Coefficient = b.Coefficient ∧
     (WithStartWait b d).Jitter = b.Jitter ∧
     (WithStartWait b d).startWait = d ∧
     (WithStartWait b d).initWait = b.initWait) ∧
    ((WithInitialWait b d).Iterations = b.Iterations ∧
     (WithInitialWait b d).Coefficient = b.Coefficient ∧
     (WithInitialWait b d).Jitter = b.Jitter ∧
     (WithInitialWait b d).startWait = b.startWait ∧
     (WithInitialWait b d).initWait = d) ∧
    (∀ b1, WithTotalDelay b d = Except.ok b1 →
      b1.Iterations = b.Iterations ∧ b1.Jitter = b.Jitter ∧ b1.startWait = b.startWait) := by
  refine ⟨⟨rfl, rfl, rfl, rfl, rfl⟩, ⟨rfl, rfl, rfl, rfl, rfl⟩, fun b1 hok => ?_⟩
  unfold WithTotalDelay minIterations WithInitialWait at hok
  by_cases h1 : b.Iterations < 2
  · rw [if_pos h1] at hok
    exact absurd hok (by simp)
  · rw [if_neg h1] at hok
    by_cases h2 : b.Iterations = 2
    · rw [if_pos h2] at hok
      obtain rfl : _ = b1 := Except.ok.inj hok
      exact ⟨rfl, rfl, rfl⟩
    · rw [if_neg h2] at hok
      by_cases hd : d - (b.startWait + b.initWait) < 0
      · rw [if_pos hd] at hok
        exact absurd hok (by simp)
      · rw [if_neg hd] at hok
        cases hv : validateB (withTotalCandidate b (d - (b.startWait + b.initWait))) with
        | none =>
            rw [hv] at hok
            obtain rfl : _ = b1 := Except.ok.inj hok
            exact ⟨rfl, rfl, rfl⟩
        | some e =>
            rw [hv] at hok
            exact absurd hok (by simp)

/-- Witness for C9 at a concrete policy, including a successful
`WithTotalDelay` conversion. -/
theorem builders_pure_witness :
    WithTotalDelay ⟨3, 1, 5, 11, 0⟩ 18 = Except.ok ⟨3, 7, 5, 11, 0⟩ ∧
    ((⟨3, 7, 5, 11, 0⟩ : Backoff).Iterations = (⟨3, 1, 5, 11, 0⟩ : Backoff).Iterations ∧
     (⟨3, 7, 5, 11, 0⟩ : Backoff).Jitter = (⟨3, 1, 5, 11, 0⟩ : Backoff).Jitter ∧
     (⟨3, 7, 5, 11, 0⟩ : Backoff).startWait = (⟨3, 1, 5, 11, 0⟩ : Backoff).startWait) := by
  have hok : WithTotalDelay ⟨3, 1, 5, 11, 0⟩ 18 = Except.ok ⟨3, 7, 5, 11, 0⟩ := by
    norm_num [WithTotalDelay, minIterations, withTotalCandidate, truncRat, goDivisor, wrap64,
      validateB]
  exact ⟨hok, (builders_pure ⟨3, 1, 5, 11, 0⟩ 18).2.2 ⟨3, 7, 5, 11, 0⟩ hok⟩

/-- Closed form of the inter-attempt delay sum for a jitter-free policy whose
iteration count stays within the 64-bit shift range. -/
theorem interDelaySum_eq (bb : Backoff) (hJ : bb.Jitter = 0) (h2 : 2 < bb.Iterations)
    (h65 : bb.Iterations ≤ 65) :
    interDelaySum bb = bb.Coefficient * (2 ^ (bb.Iterations - 2).toNat - 1) := by
  calc interDelaySum bb
      = ∑ m in Finset.range (bb.Iterations - 2).toNat,
          bb.Coefficient * truncRat (jitteredMultiple bb.Jitter 0 (1 + (m : Int))) := rfl
    _ = ∑ m in Finset.range (bb.Iterations - 2).toNat, bb.Coefficient * 2 ^ m := by
        apply Finset.sum_congr rfl
        intro m hm
        have hmK : m < (bb.Iterations - 2).toNat := Finset.mem_range.mp hm
        have hj : jitteredMultiple bb.Jitter 0 (1 + (m : Int)) = goMultiple (1 + (m : Int)) := by
          simp [jitteredMultiple, hJ]
        rw [hj, goMultiple_eq_pow _ (by omega), show ((1 : Int) + (m : Int) - 1).toNat = m by
          omega, show ((2 : ℚ) ^ m) = (((2 ^ m : Int)) : ℚ) by push_cast; ring, truncRat_intCast]
    _ = bb.Coefficient * (2 ^ (bb.Iterations - 2).toNat - 1) := by
        rw [← Finset.mul_sum]
        congr 1
        simpa using geom_sum_mul (2 : Int) (bb.Iterations - 2).toNat

/-- Claim C5: for every policy with more than 2 iterations, a successful
`WithTotalDelay d` sets the coefficient to `(d - startWait - initWait)`
divided by `2^(iterations-2) - 1` (truncated toward zero), and with jitter 0
the sum of the inter-attempt exponential delays then equals
`d - startWait - initWait` up to a rounding remainder smaller than the
divisor; the policy `{iterations:3, coefficient:1s, jitter:0}` converted via
`WithTotalDelay 3s` yields coefficient 3s. -/
theorem withTotalDelay_inverse :
    (∀ (b : Backoff) (d : Int) (b1 : Backoff), 2 < b.Iterations →
      WithTotalDelay b d = Except.ok b1 →
      b1.Coefficient =
        truncRat (((d - b.startWait - b.initWait : Int) : ℚ) /
          ((2 : ℚ) ^ (b.Iterations - 2).toNat - 1)) ∧
      (b.Jitter = 0 →
        0 ≤ (d - b.startWait - b.initWait) - interDelaySum b1 ∧
        (d - b.startWait - b.initWait) - interDelaySum b1 <
          2 ^ (b.Iterations - 2).toNat - 1)) ∧
    WithTotalDelay ⟨3, 1000000000, 0, 0, 0⟩ 3000000000
      = Except.ok ⟨3, 3000000000, 0, 0, 0⟩ := by
  constructor
  · intro b d b1 h2 hok
    unfold WithTotalDelay minIterations at hok
    rw [if_neg (by omega), if_neg (by omega)] at hok
    by_cases hd : d - (b.startWait + b.initWait) < 0
    · rw [if_pos hd] at hok
      exact absurd hok (by simp)
    · rw [if_neg hd] at hok
      cases hval : validateB (withTotalCandidate b (d - (b.startWait + b.initWait))) with
      | some e =>
          rw [hval] at hok
          exact absurd hok (by simp)
      | none =>
          rw [hval] at hok
          obtain rfl : withTotalCandidate b (d - (b.startWait + b.initWait)) = b1 :=
            Except.ok.inj hok
          have hd0 : 0 ≤ d - (b.startWait + b.initWait) := by omega
          have hcoefpos : 0 <
              (withTotalCandidate b (d - (b.startWait + b.initWait))).Coefficient :=
            ((validateB_none_iff _).mp hval).2.1
          have hI65 : b.Iterations ≤ 65 := by
            by_contra hgt
            push_neg at hgt
            have hdiv1 : goDivisor b.Iterations = -1 := goDivisor_of_ge _ (by omega)
            have hco : (withTotalCandidate b (d - (b.startWait + b.initWait))).Coefficient
                = -(d - (b.startWait + b.initWait)) := by
              unfold withTotalCandidate
              dsimp only
              rw [hdiv1]
              rw [show ((d - (b.startWait + b.initWait) : Int) : ℚ) / (((-1 : Int)) : ℚ)
                  = (((-(d - (b.startWait + b.initWait))) : Int) : ℚ) by push_cast; ring]
              exact truncRat_intCast _
            rw [hco] at hcoefpos
            omega
          have hdiv : goDivisor b.Iterations = 2 ^ (b.Iterations - 2).toNat - 1 :=
            goDivisor_eq _ (by omega) hI65
          have hDpos : (0 : Int) < 2 ^ (b.Iterations - 2).toNat - 1 := by
            have h2K : (2 : Int) ^ 1 ≤ 2 ^ (b.Iterations - 2).toNat :=
              pow_le_pow_right₀ (by norm_num) (by omega)
            norm_num at h2K
            omega
          have hcoef : (withTotalCandidate b (d - (b.startWait + b.initWait))).Coefficient
              = truncRat (((d - (b.startWait + b.initWait) : Int) : ℚ) /
                  ((2 : ℚ) ^ (b.Iterations - 2).toNat - 1)) := by
            unfold withTotalCandidate
            dsimp only
            rw [hdiv]
            congr 1
            push_cast
            ring
          constructor
          · rw [show (d - b.startWait - b.initWait : Int)
                = d - (b.startWait + b.initWait) by ring]
            exact hcoef
          · intro hJ0
            have hJ1 : (withTotalCandidate b (d - (b.startWait + b.initWait))).Jitter = 0 := hJ0
            have hsum : interDelaySum (withTotalCandidate b (d - (b.startWait + b.initWait)))
                = (withTotalCandidate b (d - (b.startWait + b.initWait))).Coefficient *
                    (2 ^ (b.Iterations - 2).toNat - 1) :=
              interDelaySum_eq _ hJ1 h2 hI65
            have hDQ : (0 : ℚ) < (2 : ℚ) ^ (b.Iterations - 2).toNat - 1 := by
              exact_mod_cast hDpos
            have hq0 : (0 : ℚ) ≤ ((d - (b.startWait + b.initWait) : Int) : ℚ) /
                ((2 : ℚ) ^ (b.Iterations - 2).toNat - 1) :=
              div_nonneg (by exact_mod_cast hd0) hDQ.le
            have hfl : (withTotalCandidate b (d - (b.startWait + b.initWait))).Coefficient
                = Int.floor (((d - (b.startWait + b.initWait) : Int) : ℚ) /
                    ((2 : ℚ) ^ (b.Iterations - 2).toNat - 1)) := by
              rw [hcoef]
              exact truncRat_of_nonneg _ hq0
            have hA' := (le_div_iff₀ hDQ).mp (Int.floor_le
              (((d - (b.startWait + b.initWait) : Int) : ℚ) /
                ((2 : ℚ) ^ (b.Iterations - 2).toNat - 1)))
            have hB' := (div_lt_iff₀ hDQ).mp (Int.lt_floor_add_one
              (((d - (b.startWait + b.initWait) : Int) : ℚ) /
                ((2 : ℚ) ^ (b.Iterations - 2).toNat - 1)))
            have hA : Int.floor (((d - (b.startWait + b.initWait) : Int) : ℚ) /
                  ((2 : ℚ) ^ (b.Iterations - 2).toNat - 1)) *
                  (2 ^ (b.Iterations - 2).toNat - 1) ≤ d - (b.startWait + b.initWait) := by
              exact_mod_cast hA'
            have hB : d - (b.startWait + b.initWait) <
                (Int.floor (((d - (b.startWait + b.initWait) : Int) : ℚ) /
                  ((2 : ℚ) ^ (b.Iterations - 2).toNat - 1)) + 1) *
                  (2 ^ (b.Iterations - 2).toNat - 1) := by
              exact_mod_cast hB'
            rw [add_mul, one_mul] at hB
            rw [show (d - b.startWait - b.initWait : Int)
                = d - (b.startWait + b.initWait) by ring, hsum, hfl]
            constructor
            · linarith
            · linarith
  · norm_num [WithTotalDelay, minIterations, withTotalCandidate, truncRat, goDivisor,
      wrap64, validateB]

/-- Witness for C5: converting `{iterations:3}` with total 35ns gives
coefficient 35ns (divisor `2^1 - 1 = 1`) and an inter-attempt delay sum of
35ns, so the remainder is 0, below the divisor. -/
theorem withTotalDelay_inverse_witness :
    WithTotalDelay ⟨3, 1, 0, 0, 0⟩ 35 = Except.ok ⟨3, 35, 0, 0, 0⟩ ∧
    (0 ≤ (35 : Int) - interDelaySum ⟨3, 35, 0, 0, 0⟩ ∧
      (35 : Int) - interDelaySum ⟨3, 35, 0, 0, 0⟩ < 2 ^ ((3 : Int) - 2).toNat - 1) := by
  have hok : WithTotalDelay ⟨3, 1, 0, 0, 0⟩ 35 = Except.ok ⟨3, 35, 0, 0, 0⟩ := by
    norm_num [WithTotalDelay, minIterations, withTotalCandidate, truncRat, goDivisor,
      wrap64, validateB]
  refine ⟨hok, ?_⟩
  have h := (withTotalDelay_inverse.1 ⟨3, 1, 0, 0, 0⟩ 35 ⟨3, 35, 0, 0, 0⟩ (by norm_num) hok).2 rfl
  simpa using h

/-- Counterexample for C8 as stated: the policy `{iterations:66, jitter:50}`
is valid and at attempt index 65 (with draw 1/2) the computed multiple is 0
— the 64-bit shift `uint(1) << 64` yields 0 — which falls outside the claimed
interval `[2^64 * (1 - 50/200), 2^64 * (1 + 50/200))`. -/
theorem jitter_bound_counterexample :
    validateB ⟨66, 1000000000, 50, 0, 0⟩ = none ∧
    (⟨66, 1000000000, 50, 0, 0⟩ : Backoff).Jitter ≠ 0 ∧
    (1 : Int) ≤ 65 ∧ (0 : ℚ) ≤ 1/2 ∧ (1/2 : ℚ) < 1 ∧
    ¬((2 : ℚ) ^ ((65 : Int) - 1).toNat * (1 - 50/200) ≤ jitteredMultiple 50 (1/2) 65 ∧
      jitteredMultiple 50 (1/2) 65 < (2 : ℚ) ^ ((65 : Int) - 1).toNat * (1 + 50/200)) := by
  refine ⟨by decide, by norm_num, by norm_num, by norm_num, by norm_num, ?_⟩
  rintro ⟨hA, -⟩
  have h0 : jitteredMultiple 50 (1/2) 65 = 0 := by
    norm_num [jitteredMultiple, goMultiple]
  rw [h0] at hA
  norm_num at hA
  exact absurd hA (not_le.mpr (by positivity))

/-- Claim C8 (amended): for every valid policy with nonzero jitter, every
attempt index `a` with 1 <= a <= 64 (so that the 64-bit shift computing the
base does not overflow to zero) and every draw r in [0,1), the jittered
multiple lies in `[2^(a-1) * (1 - J/200), 2^(a-1) * (1 + J/200))`. -/
theorem jitter_bound_within64 (b : Backoff) (hv : validateB b = none) (hJ : b.Jitter ≠ 0)
    (a : Int) (ha1 : 1 ≤ a) (ha2 : a ≤ 64) (r : ℚ) (hr0 : 0 ≤ r) (hr1 : r < 1) :
    (2 : ℚ) ^ (a - 1).toNat * (1 - b.Jitter / 200) ≤ jitteredMultiple b.Jitter r a ∧
    jitteredMultiple b.Jitter r a < (2 : ℚ) ^ (a - 1).toNat * (1 + b.Jitter / 200) := by
  obtain ⟨-, -, hjit⟩ := (validateB_none_iff b).mp hv
  rcases hjit with h0 | ⟨hJp, hJlt⟩
  · exact absurd h0 hJ
  · have hm := goMultiple_eq_pow a ha2
    have hmp : (0 : ℚ) < goMultiple a := goMultiple_pos a ha2
    have hlb := jitterTerm_lb b.Jitter r hJp hr0
    have hub := jitterTerm_ub b.Jitter r hJp hr1
    have hjm : jitteredMultiple b.Jitter r a =
        goMultiple a * (1 + jitterTerm b.Jitter r) := by
      simp only [jitteredMultiple]
      rw [if_pos hJ]
      ring
    rw [hjm, ← hm]
    constructor
    · exact mul_le_mul_of_nonneg_left (by linarith) hmp.le
    · exact mul_lt_mul_of_pos_left (by linarith) hmp

/-- Witness for the amended C8 at jitter 10, attempt 3, draw 1/4. -/
theorem jitter_bound_within64_witness :
    (2 : ℚ) ^ ((3 : Int) - 1).toNat * (1 - 10/200) ≤ jitteredMultiple 10 (1/4) 3 ∧
    jitteredMultiple 10 (1/4) 3 < (2 : ℚ) ^ ((3 : Int) - 1).toNat * (1 + 10/200) :=
  jitter_bound_within64 ⟨5, 1000000000, 10, 0, 0⟩ (by decide) (by norm_num) 3
    (by norm_num) (by norm_num) (1/4) (by norm_num) (by norm_num)

end Timetool
